import Mathlib

/-
Verification of the core numerical components of the gas-spread-arb
repository: the z-score signal generator (src/signals.py), the backtest
simulator (src/backtester.py), the AR(1) estimator (src/models.py) and
the metrics summarizer (src/metrics.py).

Modelling conventions:
* A float time-series value is `Option ℚ`: `none` models NaN / a missing
  value, `some q` a finite float.  All finite arithmetic is exact over ℚ.
* A pandas Series is a `List` of values; the claims are about series that
  are already aligned (same index), so alignment is the identity and the
  index is dropped.
* Quantities whose value genuinely needs transcendental functions
  (half-life, the residual standard deviation, the Sharpe ratio) live in
  ℝ (or `EReal` where the code can return infinity).
-/

namespace GasSpreadArb

/-! ## signals.py -/

/-- Embeds `zscore` (src/signals.py lines 22-25): if sigma is zero or NaN
the whole output is NaN, otherwise elementwise `(spread - mu) / sigma`
(NaN entries of `spread` stay NaN).  `sigma = none` models a NaN sigma. -/
def zscore (spread : List (Option ℚ)) (mu : ℚ) (sigma : Option ℚ) :
    List (Option ℚ) :=
  match sigma with
  | none => spread.map (fun _ => none)
  | some s =>
    if s = 0 then spread.map (fun _ => none)
    else spread.map (fun v => v.map (fun x => (x - mu) / s))

/-- One step of the position state machine in `generate_signal`
(src/signals.py lines 53-67): NaN z holds the position; from flat,
`z > entry_z` opens a short and `z < -entry_z` opens a long; from an
occupied position, `|z| < exit_z` closes it. -/
def stepPos (entry_z exit_z : ℚ) (cur : ℤ) (z : Option ℚ) : ℤ :=
  match z with
  | none => cur
  | some z =>
    if cur = 0 then
      if z > entry_z then -1
      else if z < -entry_z then 1
      else 0
    else
      if |z| < exit_z then 0 else cur

/-- The loop of `generate_signal`: thread the current position through the
z-score list, recording the state after each step. -/
def genPositions (entry_z exit_z : ℚ) (cur : ℤ) :
    List (Option ℚ) → List ℤ
  | [] => []
  | z :: rest =>
    let nxt := stepPos entry_z exit_z cur z
    nxt :: genPositions entry_z exit_z nxt rest

/-- Embeds `generate_signal` (src/signals.py lines 28-70): returns the
position signal series and the z-score series.  The state starts flat. -/
def generate_signal (spread : List (Option ℚ)) (mu : ℚ) (sigma : Option ℚ)
    (entry_z exit_z : ℚ) : List ℤ × List (Option ℚ) :=
  let zs := zscore spread mu sigma
  (genPositions entry_z exit_z 0 zs, zs)

theorem genPositions_length (entry_z exit_z : ℚ) (cur : ℤ)
    (zs : List (Option ℚ)) :
    (genPositions entry_z exit_z cur zs).length = zs.length := by
  induction zs generalizing cur with
  | nil => rfl
  | cons z rest ih => simp [genPositions, ih]

/-- Each recorded position is the step applied to the previous recorded
position (the previous position for index 0 being the initial state). -/
theorem genPositions_getD_succ (entry_z exit_z : ℚ) (cur : ℤ)
    (zs : List (Option ℚ)) (t : ℕ) (h : t + 1 < zs.length) :
    (genPositions entry_z exit_z cur zs).getD (t + 1) 0 =
      stepPos entry_z exit_z
        ((genPositions entry_z exit_z cur zs).getD t 0)
        (zs.getD (t + 1) none) := by
  induction zs generalizing cur t with
  | nil => simp at h
  | cons z rest ih =>
    cases rest with
    | nil => simp at h
    | cons z2 rest2 =>
      cases t with
      | zero => simp [genPositions]
      | succ t2 =>
        have h2 : t2 + 1 < (z2 :: rest2).length := by
          simpa using Nat.lt_of_succ_lt_succ h
        simpa [genPositions] using
          ih (stepPos entry_z exit_z cur z) t2 h2

/-! ## backtester.py -/

/-- Embeds `spread_aligned.diff().fillna(0.0)` (src/backtester.py line 40):
first differences with the leading NaN filled with 0. -/
def diffFill0 (s : List ℚ) : List ℚ :=
  match s with
  | [] => []
  | _ :: _ => 0 :: List.zipWith (fun a b => a - b) s.tail s

/-- Embeds `signal_aligned.shift(1).fillna(0.0)` (src/backtester.py
line 43): shift forward by one, filling the leading NaN with 0. -/
def shift1Fill0 (s : List ℚ) : List ℚ :=
  match s with
  | [] => []
  | _ :: _ => 0 :: s.dropLast

/-- Embeds `signal_aligned.diff().fillna(signal_aligned)`
(src/backtester.py line 47): first differences, the leading NaN filled
with the signal value itself. -/
def signalChangeB (s : List ℚ) : List ℚ :=
  match s with
  | [] => []
  | a :: _ => a :: List.zipWith (fun u v => u - v) s.tail s

/-- Embeds `signal_change.ne(0)` (src/backtester.py line 48): the
turnover-event indicator used by the backtester. -/
def turnoverEventsB (s : List ℚ) : List Bool :=
  (signalChangeB s).map (fun d => decide (d ≠ 0))

/-- Running cumulative sum, embedding `net_pnl.cumsum()`
(src/backtester.py line 52). -/
def cumsumFrom (acc : ℚ) : List ℚ → List ℚ
  | [] => []
  | a :: rest => (acc + a) :: cumsumFrom (acc + a) rest

/-- Output record of the backtester: the columns of the DataFrame
returned by `backtest_spread` (src/backtester.py lines 54-64). -/
structure BacktestRecord where
  spread : List ℚ
  signal : List ℚ
  position : List ℚ
  gross_pnl : List ℚ
  costs : List ℚ
  net_pnl : List ℚ
  equity : List ℚ

/-- Embeds `backtest_spread` (src/backtester.py lines 8-64) on inputs
that are already aligned (the pandas inner join is the identity when the
two series share an index, which the claims assume). -/
def backtest_spread (spread signal : List ℚ) (cost_per_turnover : ℚ) :
    BacktestRecord :=
  let d_spread := diffFill0 spread
  let position := shift1Fill0 signal
  let gross_pnl := List.zipWith (fun p d => p * d) position d_spread
  let costs := (turnoverEventsB signal).map
    (fun b => (if b then (1 : ℚ) else 0) * cost_per_turnover)
  let net_pnl := List.zipWith (fun g c => g - c) gross_pnl costs
  { spread := spread
    signal := signal
    position := position
    gross_pnl := gross_pnl
    costs := costs
    net_pnl := net_pnl
    equity := cumsumFrom 0 net_pnl }

/-! ## models.py -/

/-- Embeds `half_life` (src/models.py lines 26-29): `log 2 / -log phi`
for `0 < phi < 1`, positive infinity (modelled as the top of `EReal`)
when `phi <= 0` or `phi` is outside `(-1, 1)`. -/
noncomputable def half_life (phi : ℝ) : EReal :=
  if ¬(-1 < phi ∧ phi < 1) ∨ phi ≤ 0 then ⊤
  else ((Real.log 2 / -Real.log phi : ℝ) : EReal)

/-- Embeds `spread.dropna()`: keep the non-missing values in order. -/
def dropna (s : List (Option ℚ)) : List ℚ :=
  s.filterMap id

/-- Arithmetic mean of a rational list (0 for the empty list, which the
claims never reach). -/
def listMean (l : List ℚ) : ℚ :=
  l.sum / l.length

/-- Lagged regressor of the AR(1) fit in `fit_ar1` (src/models.py
line 55): `cleaned.shift(1).iloc[1:]`, i.e. all but the last cleaned
observation. -/
def ar1X (spread : List (Option ℚ)) : List ℚ :=
  (dropna spread).dropLast

/-- Regression target of the AR(1) fit (src/models.py line 54):
`cleaned.iloc[1:]`, i.e. all but the first cleaned observation. -/
def ar1Y (spread : List (Option ℚ)) : List ℚ :=
  (dropna spread).tail

/-- Number of observations entering the OLS regression: the cleaned
length minus the one observation consumed as the lag partner. -/
def ar1Nobs (spread : List (Option ℚ)) : ℕ :=
  (ar1Y spread).length

/-- Slope of the OLS regression of `ar1Y` on `[1, ar1X]` in closed form
(the unique least-squares solution when the design matrix has full
rank, which is what `sm.OLS(y, x).fit()` computes). -/
def ar1Phi (spread : List (Option ℚ)) : ℚ :=
  let x := ar1X spread
  let y := ar1Y spread
  let xb := listMean x
  let yb := listMean y
  (List.zipWith (fun a b => (a - xb) * (b - yb)) x y).sum /
    (x.map (fun a => (a - xb) ^ 2)).sum

/-- Intercept of the OLS regression in closed form. -/
def ar1Const (spread : List (Option ℚ)) : ℚ :=
  listMean (ar1Y spread) - ar1Phi spread * listMean (ar1X spread)

/-- Residual sum of squares of the OLS fit. -/
def ar1SSR (spread : List (Option ℚ)) : ℚ :=
  (List.zipWith
    (fun a b => (b - (ar1Const spread + ar1Phi spread * a)) ^ 2)
    (ar1X spread) (ar1Y spread)).sum

/-- Whether every element of the list equals the first one. -/
def allSame (l : List ℚ) : Bool :=
  match l with
  | [] => true
  | a :: rest => rest.all (fun b => decide (b = a))

/-- Rank of the design matrix `[1, ar1X]` of the regression: 2 when the
lagged values are not all identical, otherwise the two columns are
proportional (or there is at most one row) and the rank is 1.  This
models the `rank` statsmodels assigns to the design matrix. -/
def ar1Rank (spread : List (Option ℚ)) : ℕ :=
  if allSame (ar1X spread) then 1 else 2

/-- Modelled from the documented semantics of statsmodels
`OLSResults.mse_resid`: the residual sum of squares divided by the
residual degrees of freedom `nobs - rank`. -/
def ar1MseResid (spread : List (Option ℚ)) : ℚ :=
  ar1SSR spread / ((ar1Nobs spread : ℚ) - (ar1Rank spread : ℚ))

/-- The `sigma` entry returned by `fit_ar1` (src/models.py line 63):
`sqrt(model.mse_resid)`. -/
noncomputable def ar1Sigma (spread : List (Option ℚ)) : ℝ :=
  Real.sqrt (ar1MseResid spread)

/-! ## metrics.py -/

/-- Embeds `sharpe` (src/metrics.py lines 12-38): drop NaNs, return 0 on
an empty result or zero volatility, else annualized mean over population
standard deviation. -/
noncomputable def sharpe (pnl : List (Option ℚ)) (periods_per_year : ℕ) :
    ℝ :=
  let v := pnl.filterMap id
  if v = [] then 0
  else
    let m : ℚ := listMean v
    let vol : ℝ :=
      Real.sqrt (((v.map (fun x => (x - m) ^ 2)).sum / v.length : ℚ) : ℝ)
    if vol = 0 then 0
    else ((m : ℝ) / vol) * Real.sqrt (periods_per_year : ℝ)

/-- Helper for `max_drawdown`: fold tracking the running peak and the
most negative drawdown seen so far. -/
def mddGo (peak dd : ℚ) : List ℚ → ℚ
  | [] => dd
  | a :: rest => mddGo (max peak a) (min dd (a - max peak a)) rest

/-- Embeds `max_drawdown` (src/metrics.py lines 41-63): minimum of
`equity - cummax(equity)` after dropping NaNs, 0 for empty input. -/
def max_drawdown (equity : List (Option ℚ)) : ℚ :=
  match equity.filterMap id with
  | [] => 0
  | a :: rest => mddGo a 0 rest

/-- Embeds `signal.diff().fillna(signal)` as computed inside
`summarize_backtest` (src/metrics.py line 94). -/
def signalChangeM (s : List ℚ) : List ℚ :=
  match s with
  | [] => []
  | a :: _ => a :: List.zipWith (fun u v => u - v) s.tail s

/-- Embeds the trades count `signal_change.ne(0).sum()` of
`summarize_backtest` (src/metrics.py line 95). -/
def tradesM (s : List ℚ) : ℕ :=
  ((signalChangeM s).filter (fun d => decide (d ≠ 0))).length

/-- Embeds the win-ratio computation of `summarize_backtest`
(src/metrics.py lines 97-102): `none` models the float NaN sentinel. -/
def winRatio (net_pnl : List ℚ) : Option ℚ :=
  let nz := net_pnl.filter (fun x => decide (x ≠ 0))
  if nz = [] then none
  else some (((nz.filter (fun x => decide (0 < x))).length : ℚ) / nz.length)

/-- The scalar summary produced by `summarize_backtest`
(src/metrics.py lines 89-102). -/
structure SummaryStatistics where
  sharpe : ℝ
  max_drawdown : ℚ
  total_pnl : ℚ
  trades : ℕ
  win_ratio : Option ℚ

/-- Embeds `summarize_backtest` (src/metrics.py lines 66-104) applied to
a backtester output (whose columns carry no NaN). -/
noncomputable def summarize_backtest (bt : BacktestRecord) :
    SummaryStatistics :=
  { sharpe := sharpe (bt.net_pnl.map some) 252
    max_drawdown := max_drawdown (bt.equity.map some)
    total_pnl := bt.net_pnl.sum
    trades := tradesM bt.signal
    win_ratio := winRatio bt.net_pnl }

/-! ## Helper lemmas -/

theorem shift1Fill0_length (s : List ℚ) :
    (shift1Fill0 s).length = s.length := by
  cases s with
  | nil => rfl
  | cons a rest => simp [shift1Fill0]

theorem shift1Fill0_getD_zero (s : List ℚ) :
    (shift1Fill0 s).getD 0 0 = 0 := by
  cases s with
  | nil => rfl
  | cons a rest => rfl

theorem shift1Fill0_getD_succ (s : List ℚ) (t : ℕ) (h : t + 1 < s.length) :
    (shift1Fill0 s).getD (t + 1) 0 = s.getD t 0 := by
  cases s with
  | nil => simp at h
  | cons a rest =>
    have hd : t < ((a :: rest).dropLast).length := by
      simpa [List.length_dropLast] using Nat.lt_sub_of_add_lt h
    have ht : t < (a :: rest).length := Nat.lt_of_succ_lt h
    calc (shift1Fill0 (a :: rest)).getD (t + 1) 0
        = ((a :: rest).dropLast).getD t 0 := rfl
      _ = ((a :: rest).dropLast).get ⟨t, hd⟩ := List.getD_eq_getElem _ _ hd
      _ = (a :: rest).get ⟨t, ht⟩ := List.getElem_dropLast _ _ hd
      _ = (a :: rest).getD t 0 := (List.getD_eq_getElem _ _ ht).symm

/-- The realized position column is exactly the shifted-and-filled
signal column. -/
theorem backtest_position_eq (spread signal : List ℚ) (c : ℚ) :
    (backtest_spread spread signal c).position = shift1Fill0 signal := rfl

/-! ## Claims -/

/-- C1: in the record produced by `backtest_spread`, the position at
index 0 is 0 and the position at every later index t equals the signal
at t - 1, so no position is held before a signal exists. -/
theorem C1_position_lags_signal (spread signal : List ℚ) (c : ℚ) :
    (backtest_spread spread signal c).position.length = signal.length ∧
    (backtest_spread spread signal c).position.getD 0 0 = 0 ∧
    ∀ t : ℕ, 0 < t → t < signal.length →
      (backtest_spread spread signal c).position.getD t 0 =
        signal.getD (t - 1) 0 := by
  refine ⟨?_, ?_, ?_⟩
  · rw [backtest_position_eq]; exact shift1Fill0_length signal
  · rw [backtest_position_eq]; exact shift1Fill0_getD_zero signal
  · intro t ht hlen
    rw [backtest_position_eq]
    obtain ⟨t2, rfl⟩ := Nat.exists_eq_add_of_lt ht
    simpa using shift1Fill0_getD_succ signal t2 (by simpa using hlen)

/-- C1 witness: the invariant instantiated on a concrete backtest. -/
theorem C1_position_lags_signal_witness :
    (backtest_spread [5, 7, 6] [1, -1, 0] 0).position.length = 3 ∧
    (backtest_spread [5, 7, 6] [1, -1, 0] 0).position.getD 0 0 = 0 ∧
    (backtest_spread [5, 7, 6] [1, -1, 0] 0).position.getD 2 0 =
      [(1 : ℚ), -1, 0].getD 1 0 := by
  obtain ⟨h1, h2, h3⟩ := C1_position_lags_signal [5, 7, 6] [1, -1, 0] 0
  exact ⟨h1, h2, h3 2 (by decide) (by decide)⟩

/-- C3: with spread [10, 10, 12, 12, 8, 8], mu = 10, sigma = 2,
entry_z = 1 and exit_z = 1/4, the z-scores are [0, 0, 1, 1, -1, -1] and,
entry comparisons being strict, the position stays flat throughout. -/
theorem C3_strict_entry_boundary :
    generate_signal [some 10, some 10, some 12, some 12, some 8, some 8]
        10 (some 2) 1 (1/4) =
      ([0, 0, 0, 0, 0, 0],
       [some 0, some 0, some 1, some 1, some (-1), some (-1)]) := by
  norm_num [generate_signal, zscore, genPositions, stepPos, abs]

/-- C4 counterexample: sigma = -1 satisfies sigma <= 0, yet the z-score
series is not all-missing and the position sequence is not all flat:
the code only treats sigma equal to 0 or NaN as degenerate. -/
theorem C4_counterexample :
    ((-1 : ℚ) ≤ 0) ∧
    zscore [some 12] 10 (some (-1)) = [some (-2)] ∧
    (generate_signal [some 12] 10 (some (-1)) 1 (1/2)).1 = [1] := by
  refine ⟨by norm_num, by norm_num [zscore], ?_⟩
  norm_num [generate_signal, zscore, genPositions, stepPos, abs]

theorem genPositions_const_of_all_none (entry_z exit_z : ℚ) (cur : ℤ)
    (zs : List (Option ℚ)) (hz : ∀ z ∈ zs, z = none) :
    ∀ p ∈ genPositions entry_z exit_z cur zs, p = cur := by
  induction zs generalizing cur with
  | nil => intro p hp; simp [genPositions] at hp
  | cons z rest ih =>
    intro p hp
    have hzn : z = none := hz z (List.mem_cons_self z rest)
    have hstep : stepPos entry_z exit_z cur z = cur := by
      rw [hzn]; rfl
    simp only [genPositions, hstep, List.mem_cons] at hp
    rcases hp with h | h
    · exact h
    · exact ih cur (fun w hw => hz w (List.mem_cons_of_mem z hw)) p h

/-- C4 amended: when sigma is 0 or NaN (the two cases the code detects),
the z-score series is entirely missing and the position sequence is
flat at every timestamp. -/
theorem C4_zero_or_nan_sigma (spread : List (Option ℚ)) (mu : ℚ)
    (sigma : Option ℚ) (entry_z exit_z : ℚ)
    (h : sigma = none ∨ sigma = some 0) :
    (∀ z ∈ zscore spread mu sigma, z = none) ∧
    (∀ p ∈ (generate_signal spread mu sigma entry_z exit_z).1, p = 0) := by
  have hz : ∀ z ∈ zscore spread mu sigma, z = none := by
    rcases h with h | h <;> subst h <;>
      simp [zscore]
  refine ⟨hz, ?_⟩
  intro p hp
  exact genPositions_const_of_all_none entry_z exit_z 0 _ hz p hp

/-- C4 witness: the amended degenerate behaviour at sigma = 0 on a
concrete series. -/
theorem C4_zero_or_nan_sigma_witness :
    (∀ z ∈ zscore [some 3, none, some 5] 4 (some 0), z = none) ∧
    (∀ p ∈ (generate_signal [some 3, none, some 5] 4 (some 0) 2 (1/2)).1,
      p = 0) := by
  exact C4_zero_or_nan_sigma [some 3, none, some 5] 4 (some 0) 2 (1/2)
    (Or.inr rfl)

theorem stepPos_of_occupied (entry_z exit_z : ℚ) (cur : ℤ)
    (hc : cur ≠ 0) (z : Option ℚ) :
    stepPos entry_z exit_z cur z = 0 ∨
      stepPos entry_z exit_z cur z = cur := by
  cases z with
  | none => exact Or.inr rfl
  | some w =>
    simp only [stepPos, if_neg hc]
    by_cases hw : |w| < exit_z
    · exact Or.inl (if_pos hw)
    · exact Or.inr (if_neg hw)

theorem stepPos_eq_zero_iff (entry_z exit_z : ℚ) (cur : ℤ)
    (hc : cur ≠ 0) (z : Option ℚ) :
    stepPos entry_z exit_z cur z = 0 ↔
      ∃ w : ℚ, z = some w ∧ |w| < exit_z := by
  cases z with
  | none =>
    simp only [stepPos]
    constructor
    · intro h; exact absurd h hc
    · rintro ⟨w, hw, -⟩; cases hw
  | some w =>
    simp only [stepPos, if_neg hc]
    by_cases hw : |w| < exit_z
    · simp [if_pos hw, hw]
    · simp [if_neg hw, hw, hc]

/-- C2: the position sequence of `generate_signal` never flips directly
between long and short at consecutive timestamps, and from an occupied
position it becomes flat exactly when the next z-score is present and
strictly inside the exit band. -/
theorem C2_exit_through_flat (spread : List (Option ℚ)) (mu : ℚ)
    (sigma : Option ℚ) (entry_z exit_z : ℚ) (t : ℕ)
    (h : t + 1 < (generate_signal spread mu sigma entry_z exit_z).1.length) :
    ((generate_signal spread mu sigma entry_z exit_z).1.getD t 0 = 1 →
      (generate_signal spread mu sigma entry_z exit_z).1.getD (t + 1) 0 ≠ -1) ∧
    ((generate_signal spread mu sigma entry_z exit_z).1.getD t 0 = -1 →
      (generate_signal spread mu sigma entry_z exit_z).1.getD (t + 1) 0 ≠ 1) ∧
    ((generate_signal spread mu sigma entry_z exit_z).1.getD t 0 ≠ 0 →
      ((generate_signal spread mu sigma entry_z exit_z).1.getD (t + 1) 0 = 0 ↔
        ∃ w : ℚ,
          (generate_signal spread mu sigma entry_z exit_z).2.getD (t + 1) none
            = some w ∧ |w| < exit_z)) := by
  have hlen : t + 1 < (zscore spread mu sigma).length := by
    simpa [generate_signal, genPositions_length] using h
  have hstep := genPositions_getD_succ entry_z exit_z 0
    (zscore spread mu sigma) t hlen
  have hfst : (generate_signal spread mu sigma entry_z exit_z).1 =
      genPositions entry_z exit_z 0 (zscore spread mu sigma) := rfl
  have hsnd : (generate_signal spread mu sigma entry_z exit_z).2 =
      zscore spread mu sigma := rfl
  rw [hfst, hsnd]
  set p := genPositions entry_z exit_z 0 (zscore spread mu sigma) with hp
  refine ⟨?_, ?_, ?_⟩
  · intro h1
    rw [hstep]
    rcases stepPos_of_occupied entry_z exit_z (p.getD t 0)
        (by rw [h1]; decide) ((zscore spread mu sigma).getD (t + 1) none)
      with hcase | hcase <;> rw [hcase] <;> [decide; (rw [h1]; decide)]
  · intro h1
    rw [hstep]
    rcases stepPos_of_occupied entry_z exit_z (p.getD t 0)
        (by rw [h1]; decide) ((zscore spread mu sigma).getD (t + 1) none)
      with hcase | hcase <;> rw [hcase] <;> [decide; (rw [h1]; decide)]
  · intro h1
    rw [hstep]
    exact stepPos_eq_zero_iff entry_z exit_z (p.getD t 0) h1
      ((zscore spread mu sigma).getD (t + 1) none)

/-- C2 witness: the no-flip property and the exit characterization on a
concrete run where the machine is short at t = 0 and exits at t = 1. -/
theorem C2_exit_through_flat_witness :
    (((generate_signal [some 15, some 10] 10 (some 2) 2 (1/2)).1.getD 0 0 = 1 →
      (generate_signal [some 15, some 10] 10 (some 2) 2 (1/2)).1.getD 1 0 ≠ -1) ∧
    ((generate_signal [some 15, some 10] 10 (some 2) 2 (1/2)).1.getD 0 0 = -1 →
      (generate_signal [some 15, some 10] 10 (some 2) 2 (1/2)).1.getD 1 0 ≠ 1) ∧
    ((generate_signal [some 15, some 10] 10 (some 2) 2 (1/2)).1.getD 0 0 ≠ 0 →
      ((generate_signal [some 15, some 10] 10 (some 2) 2 (1/2)).1.getD 1 0 = 0 ↔
        ∃ w : ℚ,
          (generate_signal [some 15, some 10] 10 (some 2) 2 (1/2)).2.getD 1 none
            = some w ∧ |w| < 1/2))) := by
  exact C2_exit_through_flat [some 15, some 10] 10 (some 2) 2 (1/2) 0
    (by norm_num [generate_signal, zscore, genPositions, stepPos])

theorem signalChangeB_length (s : List ℚ) :
    (signalChangeB s).length = s.length := by
  cases s with
  | nil => rfl
  | cons a rest => simp [signalChangeB]

theorem signalChangeB_getD_zero (s : List ℚ) :
    (signalChangeB s).getD 0 0 = s.getD 0 0 := by
  cases s with
  | nil => rfl
  | cons a rest => rfl

theorem signalChangeB_getD_succ (s : List ℚ) (t : ℕ)
    (h : t + 1 < s.length) :
    (signalChangeB s).getD (t + 1) 0 = s.getD (t + 1) 0 - s.getD t 0 := by
  cases s with
  | nil => simp at h
  | cons a rest =>
    have hr : t < rest.length := by
      simpa using Nat.lt_of_succ_lt_succ h
    have hz : t < (List.zipWith (fun u v => u - v) rest (a :: rest)).length := by
      simp [List.length_zipWith]
      omega
    have ht : t < (a :: rest).length := Nat.lt_of_succ_lt h
    have ht1 : t + 1 < (a :: rest).length := h
    rw [show (signalChangeB (a :: rest)).getD (t + 1) 0 =
      (List.zipWith (fun u v => u - v) rest (a :: rest)).getD t 0 from rfl]
    rw [List.getD_eq_getElem _ _ hz, List.getD_eq_getElem _ _ ht1,
      List.getD_eq_getElem _ _ ht, List.getElem_zipWith]
    simp

/-- The costs column is the pointwise image of the signal-change column:
charge `c` where the change is nonzero, 0 elsewhere. -/
theorem backtest_costs_eq (spread signal : List ℚ) (c : ℚ) :
    (backtest_spread spread signal c).costs =
      (signalChangeB signal).map
        (fun d => (if decide (d ≠ 0) then (1 : ℚ) else 0) * c) := by
  show ((signalChangeB signal).map (fun d => decide (d ≠ 0))).map
      (fun b => (if b then (1 : ℚ) else 0) * c) = _
  rw [List.map_map]
  rfl

/-- The costs column charges exactly `cost_per_turnover` at an index
whose signal change is nonzero, and 0 elsewhere. -/
theorem backtest_costs_getD (spread signal : List ℚ) (c : ℚ) (t : ℕ)
    (h : t < signal.length) :
    (backtest_spread spread signal c).costs.getD t 0 =
      if (signalChangeB signal).getD t 0 ≠ 0 then c else 0 := by
  have h1 : t < (signalChangeB signal).length := by
    rw [signalChangeB_length]; exact h
  have hcosts := backtest_costs_eq spread signal c
  have h2 : t < ((signalChangeB signal).map
      (fun d => (if decide (d ≠ 0) then (1 : ℚ) else 0) * c)).length := by
    simpa using h1
  rw [hcosts, List.getD_eq_getElem _ _ h2, List.getElem_map,
    List.getD_eq_getElem _ _ h1]
  by_cases hd : (signalChangeB signal)[t] = 0
  · simp [hd]
  · simp [hd]

/-- C6: a turnover event occurs at t exactly when the signal differs
from its predecessor (index 0 compared against 0), each event charging
exactly `cost_per_turnover`; and for every spread path the signal
sequence [0, 1, 1, -1, -1, 0] at cost 1/50 yields costs
[0, 1/50, 0, 1/50, 0, 1/50] (events at indices 1, 3, 5) with total
3/50 = 0.06. -/
theorem C6_turnover_cost_accounting (spread signal : List ℚ) (c : ℚ) :
    (∀ t : ℕ, t < signal.length →
      (backtest_spread spread signal c).costs.getD t 0 =
        if (if t = 0 then signal.getD 0 0 ≠ 0
            else signal.getD t 0 ≠ signal.getD (t - 1) 0)
        then c else 0) ∧
    (backtest_spread spread [0, 1, 1, -1, -1, 0] (1/50)).costs =
      [0, 1/50, 0, 1/50, 0, 1/50] ∧
    (backtest_spread spread [0, 1, 1, -1, -1, 0] (1/50)).costs.sum
      = 3/50 := by
  refine ⟨?_, ?_, ?_⟩
  · intro t ht
    rw [backtest_costs_getD spread signal c t ht]
    cases t with
    | zero =>
      rw [signalChangeB_getD_zero]
      simp
    | succ t2 =>
      rw [signalChangeB_getD_succ signal t2 ht]
      have hiff : signal.getD (t2 + 1) 0 - signal.getD t2 0 ≠ 0 ↔
          signal.getD (t2 + 1) 0 ≠ signal.getD t2 0 := sub_ne_zero
      simp only [Nat.succ_ne_zero, if_false, Nat.add_sub_cancel]
      exact if_congr hiff rfl rfl
  · norm_num [backtest_spread, turnoverEventsB, signalChangeB]
  · norm_num [backtest_spread, turnoverEventsB, signalChangeB]

/-- C6 witness: the per-index characterization instantiated at index 3
of the scenario signal. -/
theorem C6_turnover_cost_accounting_witness :
    (backtest_spread [9, 9, 9, 9, 9, 9] [0, 1, 1, -1, -1, 0]
        (1/50)).costs.getD 3 0 =
      if (if (3 : ℕ) = 0 then [(0 : ℚ), 1, 1, -1, -1, 0].getD 0 0 ≠ 0
          else [(0 : ℚ), 1, 1, -1, -1, 0].getD 3 0 ≠
            [(0 : ℚ), 1, 1, -1, -1, 0].getD 2 0)
      then 1/50 else 0 := by
  exact (C6_turnover_cost_accounting [9, 9, 9, 9, 9, 9]
    [0, 1, 1, -1, -1, 0] (1/50)).1 3 (by decide)

/-- C9: the turnover-event indicator computed inside
`summarize_backtest` is pointwise identical to the one computed inside
`backtest_spread`, and for a positive cost the trades count equals the
number of indices where the backtester charged a nonzero cost. -/
theorem C9_trades_matches_charged_costs (spread signal : List ℚ) (c : ℚ)
    (hc : 0 < c) :
    (signalChangeM signal).map (fun d => decide (d ≠ 0)) =
      turnoverEventsB signal ∧
    (summarize_backtest (backtest_spread spread signal c)).trades =
      ((backtest_spread spread signal c).costs.filter
        (fun q => decide (q ≠ 0))).length := by
  refine ⟨rfl, ?_⟩
  show tradesM signal = _
  rw [backtest_costs_eq]
  show ((signalChangeM signal).filter (fun d => decide (d ≠ 0))).length = _
  rw [← List.countP_eq_length_filter, ← List.countP_eq_length_filter,
    List.countP_map]
  have hMB : signalChangeM signal = signalChangeB signal := rfl
  rw [hMB]
  apply List.countP_congr
  intro x hx
  by_cases hz : x = 0
  · simp [hz]
  · simp [hz, hc.ne']

/-- C9 witness: the indicator identity and the trades count on a
concrete signal with positive cost. -/
theorem C9_trades_matches_charged_costs_witness :
    (signalChangeM [0, 1, 1, -1]).map (fun d => decide (d ≠ 0)) =
      turnoverEventsB [0, 1, 1, -1] ∧
    (summarize_backtest (backtest_spread [4, 5, 6, 7] [0, 1, 1, -1]
        (1/50))).trades =
      ((backtest_spread [4, 5, 6, 7] [0, 1, 1, -1] (1/50)).costs.filter
        (fun q => decide (q ≠ 0))).length := by
  exact C9_trades_matches_charged_costs [4, 5, 6, 7] [0, 1, 1, -1]
    (1/50) (by norm_num)

/-- C8: `summarize_backtest` computes the win ratio as the fraction of
nonzero net-PnL entries that are strictly positive, and yields the NaN
sentinel (modelled `none`, never `some 0`) when no nonzero entry
exists, in particular on an all-zero net-PnL column. -/
theorem C8_win_ratio_nan_sentinel (bt : BacktestRecord) :
    ((∃ x ∈ bt.net_pnl, x ≠ 0) →
      (summarize_backtest bt).win_ratio =
        some ((bt.net_pnl.countP (fun x => decide (0 < x)) : ℚ) /
          (bt.net_pnl.countP (fun x => decide (x ≠ 0)) : ℚ))) ∧
    ((∀ x ∈ bt.net_pnl, x = 0) →
      (summarize_backtest bt).win_ratio = none) := by
  constructor
  · rintro ⟨x0, hx0, hx0ne⟩
    have hne : bt.net_pnl.filter (fun x => decide (x ≠ 0)) ≠ [] := by
      intro hnil
      have := List.filter_eq_nil_iff.mp hnil x0 hx0
      simp [hx0ne] at this
    show winRatio bt.net_pnl = _
    rw [winRatio]
    simp only [if_neg hne]
    congr 1
    have hnum : ((bt.net_pnl.filter (fun x => decide (x ≠ 0))).filter
        (fun x => decide (0 < x))).length =
        bt.net_pnl.countP (fun x => decide (0 < x)) := by
      rw [← List.countP_eq_length_filter, List.countP_filter]
      apply List.countP_congr
      intro x hx
      constructor
      · intro h; exact (Bool.and_elim_left h)
      · intro h
        have hxpos : 0 < x := of_decide_eq_true h
        simp [hxpos, ne_of_gt hxpos]
    have hden : (bt.net_pnl.filter (fun x => decide (x ≠ 0))).length =
        bt.net_pnl.countP (fun x => decide (x ≠ 0)) :=
      (List.countP_eq_length_filter _ _).symm
    rw [hnum, hden]
  · intro h
    have hnil : bt.net_pnl.filter (fun x => decide (x ≠ 0)) = [] := by
      apply List.filter_eq_nil_iff.mpr
      intro a ha
      simp [h a ha]
    show winRatio bt.net_pnl = none
    rw [winRatio]
    simp only [hnil]
    rfl

/-- C8 witness: the positive-fraction branch and the all-zero NaN
branch on concrete records. -/
theorem C8_win_ratio_nan_sentinel_witness :
    (summarize_backtest (backtest_spread [1, 2] [1, 1] 0)).win_ratio =
      some ((((backtest_spread [1, 2] [1, 1] 0).net_pnl.countP
          (fun x => decide (0 < x)) : ℚ)) /
        (((backtest_spread [1, 2] [1, 1] 0).net_pnl.countP
          (fun x => decide (x ≠ 0)) : ℚ))) ∧
    (summarize_backtest (backtest_spread [3, 3] [0, 0] 0)).win_ratio =
      none := by
  constructor
  · exact (C8_win_ratio_nan_sentinel (backtest_spread [1, 2] [1, 1] 0)).1
      ⟨1, by norm_num [backtest_spread, diffFill0, shift1Fill0,
        turnoverEventsB, signalChangeB], by norm_num⟩
  · exact (C8_win_ratio_nan_sentinel (backtest_spread [3, 3] [0, 0] 0)).2
      (by norm_num [backtest_spread, diffFill0, shift1Fill0,
        turnoverEventsB, signalChangeB])

/-- C10: `sharpe` depends only on the non-missing entries of the PnL
series, and an all-missing series returns 0 exactly like the empty
series. -/
theorem C10_sharpe_drops_missing (pnl : List (Option ℚ)) (n : ℕ) :
    sharpe pnl n = sharpe ((pnl.filterMap id).map some) n ∧
    ((∀ x ∈ pnl, x = none) →
      sharpe pnl n = 0 ∧ sharpe ([] : List (Option ℚ)) n = 0) := by
  constructor
  · have hclean : ((pnl.filterMap id).map some).filterMap id =
        pnl.filterMap id := by
      rw [List.filterMap_map]
      exact List.filterMap_some _
    simp only [sharpe, hclean]
  · intro h
    have hnil : pnl.filterMap id = [] := by
      rw [List.filterMap_eq_nil_iff]
      intro a ha
      rw [h a ha]
      rfl
    constructor
    · simp only [sharpe, hnil, if_pos]
    · simp only [sharpe, List.filterMap_nil, if_pos]

/-- C10 witness: a series of three missing entries behaves like the
empty series. -/
theorem C10_sharpe_drops_missing_witness :
    sharpe [none, none, none] 252 =
      sharpe ((List.filterMap id [none, none, none]).map some) 252 ∧
    sharpe [none, none, none] 252 = 0 ∧
    sharpe ([] : List (Option ℚ)) 252 = 0 := by
  obtain ⟨h1, h2⟩ := C10_sharpe_drops_missing [none, none, none] 252
  exact ⟨h1, h2 (by simp)⟩

/-- C5 counterexample: the cleaned series [5, 5, 8] has at least 2
non-missing observations, yet the sigma of `fit_ar1` is not
`sqrt(RSS / (n - 2))`: the lagged regressor is the constant [5, 5], the
design matrix has rank 1, so the residual degrees of freedom are
`n - 1 = 1` and sigma = sqrt(9/2), while the claimed formula divides
the residual sum of squares 9/2 by `n - 2 = 0`. -/
theorem C5_counterexample :
    2 ≤ (dropna [some 5, some 5, some 8]).length ∧
    ar1Sigma [some 5, some 5, some 8] ≠
      Real.sqrt ((ar1SSR [some 5, some 5, some 8] /
        ((ar1Nobs [some 5, some 5, some 8] : ℚ) - 2) : ℚ)) := by
  refine ⟨by decide, ?_⟩
  have hd : dropna [some 5, some 5, some 8] = [5, 5, 8] := by decide
  have hmse : ar1MseResid [some 5, some 5, some 8] = 9/2 := by
    simp only [ar1MseResid, ar1SSR, ar1Rank, ar1Nobs, ar1Phi, ar1Const,
      ar1X, ar1Y, listMean, allSame, hd]
    norm_num
  have hclaim : (ar1SSR [some 5, some 5, some 8] /
      ((ar1Nobs [some 5, some 5, some 8] : ℚ) - 2) : ℚ) = 0 := by
    simp only [ar1SSR, ar1Nobs, ar1Phi, ar1Const, ar1X, ar1Y, listMean,
      hd]
    norm_num
  rw [ar1Sigma, hmse, hclaim]
  push_cast
  rw [Real.sqrt_zero]
  exact ne_of_gt (Real.sqrt_pos.mpr (by norm_num))

/-- C5 amended: for a spread series with at least 2 non-missing
observations whose lagged regressor values are not all identical (so
the design matrix `[1, lag]` has full rank 2), the residual standard
deviation returned by `fit_ar1` is `sqrt(RSS / (n - 2))` where `n`, the
number of observations entering the regression, is the cleaned length
minus one; with identical lagged values the residual degrees of freedom
drop below `n - 2` and the formula fails. -/
theorem C5_sigma_dof_convention (spread : List (Option ℚ))
    (_h2 : 2 ≤ (dropna spread).length)
    (hfr : allSame (ar1X spread) = false) :
    ar1Nobs spread = (dropna spread).length - 1 ∧
    ar1Sigma spread =
      Real.sqrt ((ar1SSR spread / ((ar1Nobs spread : ℚ) - 2) : ℚ)) := by
  constructor
  · simp [ar1Nobs, ar1Y, List.length_tail]
  · simp [ar1Sigma, ar1MseResid, ar1Rank, hfr]

/-- C5 witness: the degrees-of-freedom convention on the concrete
series [1, 2, 1, 3]. -/
theorem C5_sigma_dof_convention_witness :
    ar1Nobs [some 1, some 2, some 1, some 3] =
      (dropna [some 1, some 2, some 1, some 3]).length - 1 ∧
    ar1Sigma [some 1, some 2, some 1, some 3] =
      Real.sqrt ((ar1SSR [some 1, some 2, some 1, some 3] /
        ((ar1Nobs [some 1, some 2, some 1, some 3] : ℚ) - 2) : ℚ)) := by
  exact C5_sigma_dof_convention [some 1, some 2, some 1, some 3]
    (by decide) (by decide)

/-- C7: for 0 < phi < 1 the half-life is `log 2 / -log phi`, finite and
positive; for phi <= 0 or |phi| >= 1 it is positive infinity. -/
theorem C7_half_life_cases (phi : ℝ) :
    ((0 < phi ∧ phi < 1) →
      half_life phi = ((Real.log 2 / -Real.log phi : ℝ) : EReal) ∧
      (0 : EReal) < half_life phi ∧ half_life phi < (⊤ : EReal)) ∧
    ((phi ≤ 0 ∨ 1 ≤ |phi|) → half_life phi = (⊤ : EReal)) := by
  constructor
  · rintro ⟨h0, h1⟩
    have hcond : ¬(¬(-1 < phi ∧ phi < 1) ∨ phi ≤ 0) := by
      push_neg
      exact ⟨⟨by linarith, h1⟩, h0⟩
    have heq : half_life phi =
        ((Real.log 2 / -Real.log phi : ℝ) : EReal) := by
      unfold half_life
      rw [if_neg hcond]
    refine ⟨heq, ?_, ?_⟩
    · rw [heq]
      have hlog : Real.log phi < 0 := Real.log_neg h0 h1
      have hpos : (0 : ℝ) < Real.log 2 / -Real.log phi :=
        div_pos (Real.log_pos (by norm_num)) (by linarith)
      exact EReal.coe_pos.mpr hpos
    · rw [heq]
      exact EReal.coe_lt_top _
  · intro h
    unfold half_life
    apply if_pos
    rcases h with h | h
    · exact Or.inr h
    · left
      rintro ⟨hl, hr⟩
      rcases le_abs.mp h with h1 | h1 <;> linarith

/-- C7 witness: phi = 1/2 is finite and positive, phi = 2 and
phi = -1/2 give infinity. -/
theorem C7_half_life_cases_witness :
    (half_life (1/2) =
        ((Real.log 2 / -Real.log (1/2) : ℝ) : EReal) ∧
      (0 : EReal) < half_life (1/2) ∧
      half_life (1/2) < (⊤ : EReal)) ∧
    half_life 2 = (⊤ : EReal) ∧
    half_life (-1/2) = (⊤ : EReal) := by
  refine ⟨(C7_half_life_cases (1/2)).1 ⟨by norm_num, by norm_num⟩,
    (C7_half_life_cases 2).2 (Or.inr (by rw [abs_of_pos] <;> norm_num)),
    (C7_half_life_cases (-1/2)).2 (Or.inl (by norm_num))⟩

end GasSpreadArb
